import Mathlib

/-!
Verification of the runtime-checked interior-mutability primitive from
`src/smartpointers` (files `cell.rs` and `refcell.rs`): a `Cell` that can be
overwritten through a shared handle, and a `RefCell` that tracks borrows with a
`RefState` state machine (`Unshared` / `Shared(isize)` / `Exclusive`) and hands
out `Ref` (shared) and `RefMut` (exclusive) guards.

Shallow embedding conventions:
- The `isize` shared-borrow counter is modelled as `Int` together with the
  two's-complement wrap-around `iwrap` at 64 bits, which is the release-profile
  overflow semantics of Rust's `num + 1` on `isize`.
- `UnsafeCell` indirection disappears: a `RefCell` is its value plus its state
  cell.  A guard is identified with the cell it points to, so guard operations
  (`Ref.drop`, `RefMut.drop`, `deref`, the `DerefMut` write) are functions on
  the cell.
- Rust's `unreachable!()` in the two `Drop` impls is modelled as `none`:
  a release returning `none` is the fatal invariant-violation panic, while a
  refused borrow is the ordinary value `none` of the `Option` the source
  returns.
-/

namespace Crust

/-- Lower bound of `isize` on a 64-bit target. -/
def isizeMin : Int := -(2 ^ 63)

/-- Upper bound of `isize` on a 64-bit target. -/
def isizeMax : Int := 2 ^ 63 - 1

/-- `isize::MAX` as a natural number. -/
def isizeMaxN : Nat := 2 ^ 63 - 1

/-- Two's-complement wrap-around of an integer into the 64-bit `isize` range,
the release-profile semantics of overflowing `isize` arithmetic. -/
def iwrap (x : Int) : Int := (x + 2 ^ 63) % 2 ^ 64 - 2 ^ 63

/-- `Cell<T>` from `cell.rs`: one owned value behind an `UnsafeCell`. -/
structure Cell (T : Type) where
  value : T

/-- `Cell::new` from `cell.rs`. -/
def Cell.new {T : Type} (value : T) : Cell T := ⟨value⟩

/-- `Cell::set` from `cell.rs`: unconditionally overwrites the stored value. -/
def Cell.set {T : Type} (_c : Cell T) (value : T) : Cell T := ⟨value⟩

/-- `Cell::get` from `cell.rs`: returns a copy of the stored value
(`T: Copy` in the source; every Lean value is duplicable). -/
def Cell.get {T : Type} (c : Cell T) : T := c.value

/-- `RefState` from `refcell.rs`; the `Shared` payload is the `isize` count. -/
inductive RefState where
  | Unshared : RefState
  | Shared : Int → RefState
  | Exclusive : RefState
deriving DecidableEq, Repr

/-- `RefCell<T>` from `refcell.rs`: the value plus the borrow state held in a
`Cell`. -/
structure RefCell (T : Type) where
  value : T
  state : Cell RefState

/-- `RefCell::new` from `refcell.rs`: initial state `Unshared`. -/
def RefCell.new {T : Type} (value : T) : RefCell T :=
  { value := value, state := Cell.new RefState.Unshared }

/-- `RefCell::borrow` from `refcell.rs`.  `some` is a returned `Ref` guard
(identified with the updated cell), `none` is the refusal.  The source computes
`num + 1` on the `isize` count, hence `iwrap`. -/
def RefCell.borrow {T : Type} (c : RefCell T) : Option (RefCell T) :=
  match c.state.get with
  | RefState.Unshared =>
      some { c with state := c.state.set (RefState.Shared 1) }
  | RefState.Shared num =>
      some { c with state := c.state.set (RefState.Shared (iwrap (num + 1))) }
  | RefState.Exclusive => none

/-- `RefCell::borrow_mut` from `refcell.rs`.  `some` is a returned `RefMut`
guard, `none` is the refusal. -/
def RefCell.borrow_mut {T : Type} (c : RefCell T) : Option (RefCell T) :=
  match c.state.get with
  | RefState.Unshared =>
      some { c with state := c.state.set RefState.Exclusive }
  | _ => none

/-- `Deref for Ref` from `refcell.rs`: the read accessor of a shared guard. -/
def Ref.deref {T : Type} (c : RefCell T) : T := c.value

/-- `Drop for Ref` from `refcell.rs`.  `none` models the `unreachable!()`
panic; the source decrements the `isize` count with `n - 1`, hence `iwrap`. -/
def Ref.drop {T : Type} (c : RefCell T) : Option (RefCell T) :=
  match c.state.get with
  | RefState.Exclusive | RefState.Unshared => none
  | RefState.Shared n =>
      if n = 1 then some { c with state := c.state.set RefState.Unshared }
      else some { c with state := c.state.set (RefState.Shared (iwrap (n - 1))) }

/-- `Deref for RefMut` from `refcell.rs`: the read accessor of an exclusive
guard. -/
def RefMut.deref {T : Type} (c : RefCell T) : T := c.value

/-- `DerefMut for RefMut` from `refcell.rs`, used as a write accessor: writing
`v` through the exclusive guard replaces the stored value. -/
def RefMut.write {T : Type} (c : RefCell T) (v : T) : RefCell T :=
  { c with value := v }

/-- `Drop for RefMut` from `refcell.rs`.  `none` models the `unreachable!()`
panic. -/
def RefMut.drop {T : Type} (c : RefCell T) : Option (RefCell T) :=
  match c.state.get with
  | RefState.Shared _ | RefState.Unshared => none
  | RefState.Exclusive =>
      some { c with state := c.state.set RefState.Unshared }

/-! ### Trace semantics

A client of one `RefCell` performs a finite sequence of borrow, borrow_mut and
guard-release operations.  A `Config` is the cell together with ghost counters
for the live guards; `step` executes one operation through the embedded source
operations above. -/

/-- One client operation on the cell. -/
inductive Op where
  | opBorrow : Op
  | opBorrowMut : Op
  | opReleaseShared : Op
  | opReleaseMut : Op
deriving DecidableEq, Repr

/-- A configuration: the cell plus ghost counts of live shared and exclusive
guards. -/
structure Config where
  cell : RefCell Unit
  liveShared : Nat
  liveMut : Nat

/-- Execute one operation.  Refused borrows leave the configuration unchanged;
a release that hits the `unreachable!()` branch yields `none` (panic). -/
def step (s : Config) : Op → Option Config
  | Op.opBorrow =>
      some (match s.cell.borrow with
        | some c => { s with cell := c, liveShared := s.liveShared + 1 }
        | none => s)
  | Op.opBorrowMut =>
      some (match s.cell.borrow_mut with
        | some c => { s with cell := c, liveMut := s.liveMut + 1 }
        | none => s)
  | Op.opReleaseShared =>
      (Ref.drop s.cell).map
        (fun c => { s with cell := c, liveShared := s.liveShared - 1 })
  | Op.opReleaseMut =>
      (RefMut.drop s.cell).map
        (fun c => { s with cell := c, liveMut := s.liveMut - 1 })

/-- Run a sequence of operations; `none` as soon as one step panics. -/
def run : List Op → Config → Option Config
  | [], s => some s
  | op :: ops, s =>
      match step s op with
      | some s' => run ops s'
      | none => none

/-- Release discipline for one operation: a release requires a live guard of
the matching kind; borrows are always permitted requests. -/
def enabledB (s : Config) : Op → Bool
  | Op.opBorrow => true
  | Op.opBorrowMut => true
  | Op.opReleaseShared => decide (1 ≤ s.liveShared)
  | Op.opReleaseMut => decide (1 ≤ s.liveMut)

/-- The whole trace respects release discipline (each guard released at most
once, only after its creation). -/
def disciplinedB : Config → List Op → Bool
  | _, [] => true
  | s, op :: ops =>
      enabledB s op &&
        (match step s op with
         | some s' => disciplinedB s' ops
         | none => true)

/-- Release discipline plus the bound that the number of live shared guards
never exceeds `isize::MAX` at any point of the trace. -/
def okTrace : Config → List Op → Bool
  | _, [] => true
  | s, op :: ops =>
      enabledB s op &&
        (match step s op with
         | some s' => decide (s'.liveShared ≤ isizeMaxN) && okTrace s' ops
         | none => true)

/-- The starting configuration: a fresh cell and no live guards. -/
def conf0 : Config := ⟨RefCell.new (), 0, 0⟩

/-- The exact correspondence between the stored `RefState` and the ghost guard
counts; this is the inductive invariant of the bounded system. -/
def Inv (s : Config) : Prop :=
  match s.cell.state.get with
  | RefState.Unshared => s.liveShared = 0 ∧ s.liveMut = 0
  | RefState.Shared n =>
      (s.liveShared : Int) = n ∧ 1 ≤ s.liveShared ∧ s.liveMut = 0
  | RefState.Exclusive => s.liveShared = 0 ∧ s.liveMut = 1

/-- The aliasing invariant as the specification states it: at most one live
exclusive guard, shared and exclusive guards never live together, `Shared n`
exactly when `n ≥ 1` shared guards are live, `Exclusive` exactly when the one
exclusive guard is live. -/
def specInv (s : Config) : Prop :=
  s.liveMut ≤ 1 ∧
  (s.liveShared = 0 ∨ s.liveMut = 0) ∧
  (∀ n : Int, s.cell.state.get = RefState.Shared n ↔
    (1 ≤ n ∧ (s.liveShared : Int) = n)) ∧
  (s.cell.state.get = RefState.Exclusive ↔ s.liveMut = 1)

/-! ### Arithmetic facts about the wrap-around -/

theorem iwrap_eq_of_range (x : Int) (h1 : -(2 ^ 63) ≤ x) (h2 : x ≤ 2 ^ 63 - 1) :
    iwrap x = x := by
  unfold iwrap
  omega

theorem iwrap_iwrap_add (a b : Int) : iwrap (iwrap a + b) = iwrap (a + b) := by
  unfold iwrap
  omega

/-! ### Single-step facts -/

theorem run_cons (op : Op) (ops : List Op) (s : Config) :
    run (op :: ops) s =
      (match step s op with
       | some s' => run ops s'
       | none => none) := rfl

theorem step_borrow_shared (n : Int) (ls lm : Nat) :
    step ⟨⟨(), ⟨RefState.Shared n⟩⟩, ls, lm⟩ Op.opBorrow =
      some ⟨⟨(), ⟨RefState.Shared (iwrap (n + 1))⟩⟩, ls + 1, lm⟩ := rfl

theorem step_borrow_some (s : Config) : ∃ s', step s Op.opBorrow = some s' :=
  ⟨_, rfl⟩

/-- Running `k` borrows from a `Shared` state wraps the count `k` more times
around and creates `k` more live shared guards. -/
theorem run_replicate_borrow (k : Nat) : ∀ (n : Int) (ls lm : Nat),
    run (List.replicate k Op.opBorrow) ⟨⟨(), ⟨RefState.Shared (iwrap n)⟩⟩, ls, lm⟩
      = some ⟨⟨(), ⟨RefState.Shared (iwrap (n + k))⟩⟩, ls + k, lm⟩ := by
  induction k with
  | zero =>
      intro n ls lm
      simp [run]
  | succ k ih =>
      intro n ls lm
      rw [List.replicate_succ, run_cons, step_borrow_shared, iwrap_iwrap_add]
      have h := ih (n + 1) (ls + 1) lm
      have h1 : n + 1 + (k : Int) = n + ((k + 1 : Nat) : Int) := by push_cast; ring
      have h2 : ls + 1 + k = ls + (k + 1) := by omega
      rw [h1, h2] at h
      exact h

/-- A trace consisting only of borrows always respects release discipline. -/
theorem disciplined_replicate_borrow (k : Nat) : ∀ s : Config,
    disciplinedB s (List.replicate k Op.opBorrow) = true := by
  induction k with
  | zero => intro s; rfl
  | succ k ih =>
      intro s
      rw [List.replicate_succ]
      show (enabledB s Op.opBorrow &&
        (match step s Op.opBorrow with
         | some s' => disciplinedB s' (List.replicate k Op.opBorrow)
         | none => true)) = true
      obtain ⟨s', hs'⟩ := step_borrow_some s
      rw [hs']
      simp [enabledB, ih]

/-- Runs compose over list append. -/
theorem run_append (xs : List Op) : ∀ (ys : List Op) (s s' : Config),
    run xs s = some s' → run (xs ++ ys) s = run ys s' := by
  induction xs with
  | nil =>
      intro ys s s' h
      simp [run] at h
      simp [h]
  | cons x xs ih =>
      intro ys s s' h
      rw [run_cons] at h
      rw [List.cons_append, run_cons]
      cases hx : step s x with
      | none => rw [hx] at h; exact absurd h (by simp)
      | some s1 =>
          rw [hx] at h
          exact ih ys s1 s' h

/-- Discipline composes over list append when the first part runs without
panic. -/
theorem disciplined_append (xs : List Op) : ∀ (ys : List Op) (s s' : Config),
    run xs s = some s' → disciplinedB s xs = true →
    disciplinedB s' ys = true → disciplinedB s (xs ++ ys) = true := by
  induction xs with
  | nil =>
      intro ys s s' h _ hy
      simp [run] at h
      show disciplinedB s ys = true
      rw [h]
      exact hy
  | cons x xs ih =>
      intro ys s s' h hx hy
      rw [run_cons] at h
      cases hstep : step s x with
      | none => rw [hstep] at h; exact absurd h (by simp)
      | some s1 =>
          rw [hstep] at h
          rw [List.cons_append]
          show (enabledB s x &&
            (match step s x with
             | some s2 => disciplinedB s2 (xs ++ ys)
             | none => true)) = true
          rw [hstep]
          have hx' : (enabledB s x &&
            (match step s x with
             | some s2 => disciplinedB s2 xs
             | none => true)) = true := hx
          rw [hstep] at hx'
          simp only [Bool.and_eq_true] at hx' ⊢
          exact ⟨hx'.1, ih ys s1 s' h hx'.2 hy⟩

/-! ### The preservation argument -/

theorem okTrace_cons (s : Config) (op : Op) (ops : List Op) :
    okTrace s (op :: ops) =
      (enabledB s op &&
        (match step s op with
         | some s' => decide (s'.liveShared ≤ isizeMaxN) && okTrace s' ops
         | none => true)) := rfl

theorem okTrace_cons_some {s s1 : Config} {op : Op} {ops : List Op}
    (h : step s op = some s1) :
    okTrace s (op :: ops) =
      (enabledB s op && (decide (s1.liveShared ≤ isizeMaxN) && okTrace s1 ops)) := by
  rw [okTrace_cons, h]

theorem okTrace_cons_none {s : Config} {op : Op} {ops : List Op}
    (h : step s op = none) :
    okTrace s (op :: ops) = enabledB s op := by
  rw [okTrace_cons, h]
  exact Bool.and_true _

theorem run_cons_some {s s1 : Config} {op : Op} {ops : List Op}
    (h : step s op = some s1) :
    run (op :: ops) s = run ops s1 := by
  rw [run_cons, h]

theorem step_release_shared (n : Int) (v : Unit) (ls lm : Nat) :
    step ⟨⟨v, ⟨RefState.Shared n⟩⟩, ls, lm⟩ Op.opReleaseShared =
      some ⟨⟨v, ⟨if n = 1 then RefState.Unshared
                 else RefState.Shared (iwrap (n - 1))⟩⟩, ls - 1, lm⟩ := by
  show (Ref.drop _).map _ = _
  unfold Ref.drop
  by_cases hn : n = 1
  · subst hn
    simp [Cell.get, Cell.set]
  · simp [Cell.get, Cell.set, hn]

theorem mk_liveShared (c : RefCell Unit) (ls lm : Nat) :
    (⟨c, ls, lm⟩ : Config).liveShared = ls := rfl

theorem mk_liveMut (c : RefCell Unit) (ls lm : Nat) :
    (⟨c, ls, lm⟩ : Config).liveMut = lm := rfl

theorem inv_unshared (v : Unit) (ls lm : Nat) :
    Inv ⟨⟨v, ⟨RefState.Unshared⟩⟩, ls, lm⟩ ↔ (ls = 0 ∧ lm = 0) := Iff.rfl

theorem inv_shared (v : Unit) (n : Int) (ls lm : Nat) :
    Inv ⟨⟨v, ⟨RefState.Shared n⟩⟩, ls, lm⟩ ↔
      ((ls : Int) = n ∧ 1 ≤ ls ∧ lm = 0) := Iff.rfl

theorem inv_exclusive (v : Unit) (ls lm : Nat) :
    Inv ⟨⟨v, ⟨RefState.Exclusive⟩⟩, ls, lm⟩ ↔ (ls = 0 ∧ lm = 1) := Iff.rfl

theorem specinv_mk (v : Unit) (st : RefState) (ls lm : Nat) :
    specInv ⟨⟨v, ⟨st⟩⟩, ls, lm⟩ ↔
      (lm ≤ 1 ∧ (ls = 0 ∨ lm = 0) ∧
       (∀ n : Int, st = RefState.Shared n ↔ (1 ≤ n ∧ (ls : Int) = n)) ∧
       (st = RefState.Exclusive ↔ lm = 1)) := Iff.rfl

/-- Key preservation lemma: from a configuration satisfying the exact
state/count correspondence, any trace respecting release discipline and the
shared-count bound runs to completion without hitting the fatal branch, and
the correspondence still holds at the end. -/
theorem run_preserves (ops : List Op) : ∀ s : Config,
    Inv s → s.liveShared ≤ isizeMaxN → okTrace s ops = true →
    ∃ s', run ops s = some s' ∧ Inv s' ∧ s'.liveShared ≤ isizeMaxN := by
  induction ops with
  | nil =>
      intro s h hb _
      exact ⟨s, rfl, h, hb⟩
  | cons op ops ih =>
      intro s h hb hok
      obtain ⟨⟨v, ⟨st⟩⟩, ls, lm⟩ := s
      rw [mk_liveShared] at hb
      cases op with
      | opBorrow =>
          cases st with
          | Unshared =>
              rw [inv_unshared] at h
              have hstep : step ⟨⟨v, ⟨RefState.Unshared⟩⟩, ls, lm⟩ Op.opBorrow
                  = some ⟨⟨v, ⟨RefState.Shared 1⟩⟩, ls + 1, lm⟩ := rfl
              rw [okTrace_cons_some hstep] at hok
              simp only [Bool.and_eq_true, decide_eq_true_eq, mk_liveShared] at hok
              rw [run_cons_some hstep]
              exact ih _ ((inv_shared v 1 (ls + 1) lm).mpr (by omega))
                hok.2.1 hok.2.2
          | Shared n =>
              rw [inv_shared] at h
              have hstep : step ⟨⟨v, ⟨RefState.Shared n⟩⟩, ls, lm⟩ Op.opBorrow
                  = some ⟨⟨v, ⟨RefState.Shared (iwrap (n + 1))⟩⟩, ls + 1, lm⟩ := rfl
              rw [okTrace_cons_some hstep] at hok
              simp only [Bool.and_eq_true, decide_eq_true_eq, mk_liveShared] at hok
              have hb1 : ls + 1 ≤ 2 ^ 63 - 1 := hok.2.1
              have hw : iwrap (n + 1) = n + 1 :=
                iwrap_eq_of_range _ (by omega) (by omega)
              rw [run_cons_some hstep, hw]
              rw [hw] at hok
              exact ih _ ((inv_shared v (n + 1) (ls + 1) lm).mpr (by omega))
                hok.2.1 hok.2.2
          | Exclusive =>
              have hstep : step ⟨⟨v, ⟨RefState.Exclusive⟩⟩, ls, lm⟩ Op.opBorrow
                  = some ⟨⟨v, ⟨RefState.Exclusive⟩⟩, ls, lm⟩ := rfl
              rw [okTrace_cons_some hstep] at hok
              simp only [Bool.and_eq_true, decide_eq_true_eq, mk_liveShared] at hok
              rw [run_cons_some hstep]
              exact ih _ h hok.2.1 hok.2.2
      | opBorrowMut =>
          cases st with
          | Unshared =>
              rw [inv_unshared] at h
              have hstep : step ⟨⟨v, ⟨RefState.Unshared⟩⟩, ls, lm⟩ Op.opBorrowMut
                  = some ⟨⟨v, ⟨RefState.Exclusive⟩⟩, ls, lm + 1⟩ := rfl
              rw [okTrace_cons_some hstep] at hok
              simp only [Bool.and_eq_true, decide_eq_true_eq, mk_liveShared] at hok
              rw [run_cons_some hstep]
              exact ih _ ((inv_exclusive v ls (lm + 1)).mpr (by omega))
                hok.2.1 hok.2.2
          | Shared n =>
              have hstep : step ⟨⟨v, ⟨RefState.Shared n⟩⟩, ls, lm⟩ Op.opBorrowMut
                  = some ⟨⟨v, ⟨RefState.Shared n⟩⟩, ls, lm⟩ := rfl
              rw [okTrace_cons_some hstep] at hok
              simp only [Bool.and_eq_true, decide_eq_true_eq, mk_liveShared] at hok
              rw [run_cons_some hstep]
              exact ih _ h hok.2.1 hok.2.2
          | Exclusive =>
              have hstep : step ⟨⟨v, ⟨RefState.Exclusive⟩⟩, ls, lm⟩ Op.opBorrowMut
                  = some ⟨⟨v, ⟨RefState.Exclusive⟩⟩, ls, lm⟩ := rfl
              rw [okTrace_cons_some hstep] at hok
              simp only [Bool.and_eq_true, decide_eq_true_eq, mk_liveShared] at hok
              rw [run_cons_some hstep]
              exact ih _ h hok.2.1 hok.2.2
      | opReleaseShared =>
          cases st with
          | Unshared =>
              rw [inv_unshared] at h
              have hstep : step ⟨⟨v, ⟨RefState.Unshared⟩⟩, ls, lm⟩ Op.opReleaseShared
                  = none := rfl
              rw [okTrace_cons_none hstep] at hok
              simp only [enabledB, mk_liveShared, decide_eq_true_eq] at hok
              omega
          | Shared n =>
              rw [inv_shared] at h
              rw [okTrace_cons_some (step_release_shared n v ls lm)] at hok
              simp only [Bool.and_eq_true, decide_eq_true_eq, mk_liveShared] at hok
              rw [run_cons_some (step_release_shared n v ls lm)]
              by_cases hn : n = 1
              · subst hn
                simp only [if_pos rfl] at hok ⊢
                exact ih _ ((inv_unshared v (ls - 1) lm).mpr (by omega))
                  hok.2.1 hok.2.2
              · have hb1 : ls ≤ 2 ^ 63 - 1 := hb
                have hw : iwrap (n - 1) = n - 1 :=
                  iwrap_eq_of_range _ (by omega) (by omega)
                simp only [if_neg hn, hw] at hok ⊢
                exact ih _ ((inv_shared v (n - 1) (ls - 1) lm).mpr (by omega))
                  hok.2.1 hok.2.2
          | Exclusive =>
              rw [inv_exclusive] at h
              have hstep : step ⟨⟨v, ⟨RefState.Exclusive⟩⟩, ls, lm⟩ Op.opReleaseShared
                  = none := rfl
              rw [okTrace_cons_none hstep] at hok
              simp only [enabledB, mk_liveShared, decide_eq_true_eq] at hok
              omega
      | opReleaseMut =>
          cases st with
          | Unshared =>
              rw [inv_unshared] at h
              have hstep : step ⟨⟨v, ⟨RefState.Unshared⟩⟩, ls, lm⟩ Op.opReleaseMut
                  = none := rfl
              rw [okTrace_cons_none hstep] at hok
              simp only [enabledB, mk_liveMut, decide_eq_true_eq] at hok
              omega
          | Shared n =>
              rw [inv_shared] at h
              have hstep : step ⟨⟨v, ⟨RefState.Shared n⟩⟩, ls, lm⟩ Op.opReleaseMut
                  = none := rfl
              rw [okTrace_cons_none hstep] at hok
              simp only [enabledB, mk_liveMut, decide_eq_true_eq] at hok
              omega
          | Exclusive =>
              rw [inv_exclusive] at h
              have hstep : step ⟨⟨v, ⟨RefState.Exclusive⟩⟩, ls, lm⟩ Op.opReleaseMut
                  = some ⟨⟨v, ⟨RefState.Unshared⟩⟩, ls, lm - 1⟩ := rfl
              rw [okTrace_cons_some hstep] at hok
              simp only [Bool.and_eq_true, decide_eq_true_eq, mk_liveShared] at hok
              rw [run_cons_some hstep]
              exact ih _ ((inv_unshared v ls (lm - 1)).mpr (by omega))
                hok.2.1 hok.2.2

/-- The exact correspondence implies the aliasing invariant as specified. -/
theorem inv_implies_specInv (s : Config) (h : Inv s) : specInv s := by
  obtain ⟨⟨v, ⟨st⟩⟩, ls, lm⟩ := s
  rw [specinv_mk]
  cases st with
  | Unshared =>
      rw [inv_unshared] at h
      refine ⟨by omega, Or.inl h.1, fun n => ⟨fun hc => (nomatch hc),
        fun hc => by exfalso; omega⟩,
        ⟨fun hc => (nomatch hc), fun hc => by exfalso; omega⟩⟩
  | Shared n =>
      rw [inv_shared] at h
      refine ⟨by omega, Or.inr h.2.2, fun m => ⟨fun hc => ?_, fun hc => ?_⟩,
        ⟨fun hc => (nomatch hc), fun hc => by exfalso; omega⟩⟩
      · cases hc
        omega
      · have hm : n = m := by omega
        rw [hm]
  | Exclusive =>
      rw [inv_exclusive] at h
      refine ⟨by omega, Or.inl h.1, fun m => ⟨fun hc => (nomatch hc),
        fun hc => by exfalso; omega⟩,
        ⟨fun _ => h.2, fun _ => rfl⟩⟩

/-! ### Further helper lemmas -/

theorem ref_drop_shared {T : Type} (v : T) (n : Int) :
    Ref.drop (⟨v, ⟨RefState.Shared n⟩⟩ : RefCell T) =
      some ⟨v, ⟨if n = 1 then RefState.Unshared
                else RefState.Shared (iwrap (n - 1))⟩⟩ := by
  unfold Ref.drop
  by_cases hn : n = 1
  · subst hn
    simp [Cell.get, Cell.set]
  · simp [Cell.get, Cell.set, hn]

/-! ### The claims -/

/-- Claim C9: on a `Cell` (the spec's MutableCell), `set v` immediately
followed by `get` returns exactly `v`; `set` and `get` are total functions,
so there is no failure mode. -/
theorem cell_set_get {T : Type} (c : Cell T) (v : T) : (c.set v).get = v := rfl

/-- Claim C8: Scenario A.  `RefCell::new(0)` starts `Unshared`; `borrow_mut`
succeeds yielding an exclusive guard; writing `5` through it and releasing it
leaves the cell holding `5` in state `Unshared`; a subsequent `borrow`
succeeds and its read accessor returns `5`. -/
theorem scenario_a :
    ∃ g1 c2 g3 : RefCell Int,
      RefCell.borrow_mut (RefCell.new (0 : Int)) = some g1 ∧
      RefMut.drop (RefMut.write g1 5) = some c2 ∧
      c2.value = 5 ∧ c2.state.get = RefState.Unshared ∧
      RefCell.borrow c2 = some g3 ∧
      Ref.deref g3 = 5 :=
  ⟨⟨0, ⟨RefState.Exclusive⟩⟩, ⟨5, ⟨RefState.Unshared⟩⟩, ⟨5, ⟨RefState.Shared 1⟩⟩,
    rfl, rfl, rfl, rfl, rfl, rfl⟩

/-- Claim C3: `borrow_mut` in state `Unshared` sets `Exclusive` and returns a
guard; in state `Shared(_)` or `Exclusive` it returns nothing; it returns
nothing exactly when the state is not `Unshared`, i.e. when some guard is
live. -/
theorem borrow_mut_table {T : Type} (v : T) (n : Int) :
    RefCell.borrow_mut (⟨v, ⟨RefState.Unshared⟩⟩ : RefCell T)
        = some ⟨v, ⟨RefState.Exclusive⟩⟩ ∧
    RefCell.borrow_mut (⟨v, ⟨RefState.Shared n⟩⟩ : RefCell T) = none ∧
    RefCell.borrow_mut (⟨v, ⟨RefState.Exclusive⟩⟩ : RefCell T) = none ∧
    (∀ st : RefState, RefCell.borrow_mut (⟨v, ⟨st⟩⟩ : RefCell T) = none ↔
      st ≠ RefState.Unshared) := by
  refine ⟨rfl, rfl, rfl, fun st => ?_⟩
  cases st <;> simp [RefCell.borrow_mut, Cell.get]

/-- Claim C4: each release reverses the transition its creation performed:
dropping a `Ref` at `Shared(1)` yields `Unshared`, at `Shared(n)` with
`n > 1` yields `Shared(n-1)` (the hypothesis `n ≤ isize::MAX` only expresses
that `n` is a representable `isize` value, as the source's field type
guarantees), and dropping the `RefMut` at `Exclusive` yields `Unshared`. -/
theorem guard_release_reverses {T : Type} (v : T) (n : Int)
    (h1 : 1 < n) (h2 : n ≤ isizeMax) :
    Ref.drop (⟨v, ⟨RefState.Shared 1⟩⟩ : RefCell T)
        = some ⟨v, ⟨RefState.Unshared⟩⟩ ∧
    Ref.drop (⟨v, ⟨RefState.Shared n⟩⟩ : RefCell T)
        = some ⟨v, ⟨RefState.Shared (n - 1)⟩⟩ ∧
    RefMut.drop (⟨v, ⟨RefState.Exclusive⟩⟩ : RefCell T)
        = some ⟨v, ⟨RefState.Unshared⟩⟩ := by
  refine ⟨?_, ?_, rfl⟩
  · rw [ref_drop_shared, if_pos rfl]
  · have h2' : n ≤ 2 ^ 63 - 1 := h2
    have hw : iwrap (n - 1) = n - 1 := iwrap_eq_of_range _ (by omega) (by omega)
    rw [ref_drop_shared, if_neg (by omega), hw]

/-- Instantiation of `guard_release_reverses` at `n = 2`. -/
theorem guard_release_reverses_inst :
    (1 < (2 : Int)) ∧ ((2 : Int) ≤ isizeMax) ∧
    Ref.drop (⟨(0 : Int), ⟨RefState.Shared 2⟩⟩ : RefCell Int)
        = some ⟨0, ⟨RefState.Shared 1⟩⟩ := by
  refine ⟨by decide, by decide, ?_⟩
  have h := (guard_release_reverses (0 : Int) 2 (by decide) (by decide)).2.1
  norm_num at h
  exact h

/-- Claim C6: a refused borrow is atomic and harmless: when `borrow` is
refused (state `Exclusive`) or `borrow_mut` is refused (state not
`Unshared`), the step yields `some` of the unchanged configuration — same
state, same live-guard counts, and an ordinary (non-panicking) result. -/
theorem refusal_no_change (s t : Config)
    (h1 : s.cell.state.get = RefState.Exclusive)
    (h2 : t.cell.state.get ≠ RefState.Unshared) :
    step s Op.opBorrow = some s ∧ step t Op.opBorrowMut = some t := by
  constructor
  · obtain ⟨⟨v, ⟨st⟩⟩, ls, lm⟩ := s
    have h1' : st = RefState.Exclusive := h1
    subst h1'
    rfl
  · obtain ⟨⟨v, ⟨st⟩⟩, ls, lm⟩ := t
    have h2' : st ≠ RefState.Unshared := h2
    cases st with
    | Unshared => exact absurd rfl h2'
    | Shared n => rfl
    | Exclusive => rfl

/-- Instantiation of `refusal_no_change` at a configuration with a live
exclusive guard. -/
theorem refusal_no_change_inst :
    step ⟨⟨(), ⟨RefState.Exclusive⟩⟩, 0, 1⟩ Op.opBorrow
        = some ⟨⟨(), ⟨RefState.Exclusive⟩⟩, 0, 1⟩ ∧
    step ⟨⟨(), ⟨RefState.Exclusive⟩⟩, 0, 1⟩ Op.opBorrowMut
        = some ⟨⟨(), ⟨RefState.Exclusive⟩⟩, 0, 1⟩ :=
  refusal_no_change _ _ rfl (by decide)

/-- Claim C7: the cell is reusable after release.  In any configuration
satisfying the state/count correspondence, releasing the last live shared
guard leaves the state `Unshared` and a subsequent `borrow_mut` succeeds; and
releasing the live exclusive guard leaves the state `Unshared` and a
subsequent `borrow` succeeds. -/
theorem cell_reusable (s t : Config) (hs : Inv s) (h1 : s.liveShared = 1)
    (ht : Inv t) (h2 : t.liveMut = 1) :
    (∃ s', step s Op.opReleaseShared = some s' ∧
      s'.cell.state.get = RefState.Unshared ∧
      (RefCell.borrow_mut s'.cell).isSome = true) ∧
    (∃ t', step t Op.opReleaseMut = some t' ∧
      t'.cell.state.get = RefState.Unshared ∧
      (RefCell.borrow t'.cell).isSome = true) := by
  constructor
  · obtain ⟨⟨v, ⟨st⟩⟩, ls, lm⟩ := s
    have h1' : ls = 1 := h1
    subst h1'
    cases st with
    | Unshared => rw [inv_unshared] at hs; omega
    | Shared n =>
        rw [inv_shared] at hs
        have hn : n = 1 := by omega
        subst hn
        exact ⟨⟨⟨v, ⟨RefState.Unshared⟩⟩, 0, lm⟩, rfl, rfl, rfl⟩
    | Exclusive => rw [inv_exclusive] at hs; omega
  · obtain ⟨⟨v, ⟨st⟩⟩, ls, lm⟩ := t
    have h2' : lm = 1 := h2
    subst h2'
    cases st with
    | Unshared => rw [inv_unshared] at ht; omega
    | Shared n => rw [inv_shared] at ht; omega
    | Exclusive =>
        rw [inv_exclusive] at ht
        exact ⟨⟨⟨v, ⟨RefState.Unshared⟩⟩, ls, 0⟩, rfl, rfl, rfl⟩

/-- Instantiation of `cell_reusable`: one live shared guard at `Shared(1)`
and one live exclusive guard at `Exclusive`. -/
theorem cell_reusable_inst :
    Inv ⟨⟨(), ⟨RefState.Shared 1⟩⟩, 1, 0⟩ ∧
    Inv ⟨⟨(), ⟨RefState.Exclusive⟩⟩, 0, 1⟩ ∧
    ((∃ s', step ⟨⟨(), ⟨RefState.Shared 1⟩⟩, 1, 0⟩ Op.opReleaseShared = some s' ∧
        s'.cell.state.get = RefState.Unshared ∧
        (RefCell.borrow_mut s'.cell).isSome = true) ∧
     (∃ t', step ⟨⟨(), ⟨RefState.Exclusive⟩⟩, 0, 1⟩ Op.opReleaseMut = some t' ∧
        t'.cell.state.get = RefState.Unshared ∧
        (RefCell.borrow t'.cell).isSome = true)) := by
  have ha : Inv ⟨⟨(), ⟨RefState.Shared 1⟩⟩, 1, 0⟩ :=
    (inv_shared () 1 1 0).mpr (by omega)
  have hb : Inv ⟨⟨(), ⟨RefState.Exclusive⟩⟩, 0, 1⟩ :=
    (inv_exclusive () 0 1).mpr (by omega)
  exact ⟨ha, hb, cell_reusable _ _ ha rfl hb rfl⟩

/-- Claim C2 as stated is false on the code: at state `Shared(isize::MAX)`
the source's `num + 1` wraps, so `borrow` returns a guard with the count set
to `isize::MIN`, which is not `isize::MAX + 1`. -/
theorem borrow_overflow_cex :
    RefCell.borrow (⟨(), ⟨RefState.Shared isizeMax⟩⟩ : RefCell Unit)
        = some ⟨(), ⟨RefState.Shared isizeMin⟩⟩ ∧
    isizeMin ≠ isizeMax + 1 := by
  constructor
  · show some (⟨(), ⟨RefState.Shared (iwrap (isizeMax + 1))⟩⟩ : RefCell Unit) = _
    rw [show iwrap (isizeMax + 1) = isizeMin from by decide]
  · decide

/-- Claim C2 (amended): `borrow` in state `Unshared` sets `Shared(1)` and
returns a guard; in state `Shared(n)` with `n < isize::MAX` it sets
`Shared(n+1)` and returns a guard, while at `n = isize::MAX` the count wraps
to `isize::MIN` (still returning a guard); in state `Exclusive` it returns
nothing, and it returns nothing exactly when the state is `Exclusive`, i.e.
exactly when the exclusive guard is live. -/
theorem borrow_table {T : Type} (v : T) (n : Int)
    (h1 : isizeMin ≤ n) (h2 : n < isizeMax) :
    RefCell.borrow (⟨v, ⟨RefState.Unshared⟩⟩ : RefCell T)
        = some ⟨v, ⟨RefState.Shared 1⟩⟩ ∧
    RefCell.borrow (⟨v, ⟨RefState.Shared n⟩⟩ : RefCell T)
        = some ⟨v, ⟨RefState.Shared (n + 1)⟩⟩ ∧
    RefCell.borrow (⟨v, ⟨RefState.Shared isizeMax⟩⟩ : RefCell T)
        = some ⟨v, ⟨RefState.Shared isizeMin⟩⟩ ∧
    RefCell.borrow (⟨v, ⟨RefState.Exclusive⟩⟩ : RefCell T) = none ∧
    (∀ st : RefState, RefCell.borrow (⟨v, ⟨st⟩⟩ : RefCell T) = none ↔
      st = RefState.Exclusive) := by
  refine ⟨rfl, ?_, ?_, rfl, fun st => ?_⟩
  · have h1' : -(2 ^ 63) ≤ n := h1
    have h2' : n < 2 ^ 63 - 1 := h2
    have hw : iwrap (n + 1) = n + 1 := iwrap_eq_of_range _ (by omega) (by omega)
    show some (⟨v, ⟨RefState.Shared (iwrap (n + 1))⟩⟩ : RefCell T) = _
    rw [hw]
  · show some (⟨v, ⟨RefState.Shared (iwrap (isizeMax + 1))⟩⟩ : RefCell T) = _
    rw [show iwrap (isizeMax + 1) = isizeMin from by decide]
  · cases st <;> simp [RefCell.borrow, Cell.get]

/-- Instantiation of `borrow_table` at `n = 2`. -/
theorem borrow_table_inst :
    (isizeMin ≤ (2 : Int)) ∧ ((2 : Int) < isizeMax) ∧
    RefCell.borrow (⟨(0 : Int), ⟨RefState.Shared 2⟩⟩ : RefCell Int)
        = some ⟨0, ⟨RefState.Shared 3⟩⟩ := by
  refine ⟨by decide, by decide, ?_⟩
  have h := (borrow_table (0 : Int) 2 (by decide) (by decide)).2.1
  norm_num at h
  exact h

/-- Claim C1 as stated is false on the code: the trace of `2^63` disciplined
borrows wraps the `isize` count, ending with `2^63` live shared guards but
state `Shared(-2^63)`, so `Shared(n) ↔ n ≥ 1 shared guards live` fails. -/
theorem aliasing_invariant_cex :
    disciplinedB conf0 (List.replicate (2 ^ 63) Op.opBorrow) = true ∧
    run (List.replicate (2 ^ 63) Op.opBorrow) conf0
        = some ⟨⟨(), ⟨RefState.Shared (-(2 ^ 63))⟩⟩, 2 ^ 63, 0⟩ ∧
    ¬ specInv ⟨⟨(), ⟨RefState.Shared (-(2 ^ 63))⟩⟩, 2 ^ 63, 0⟩ := by
  refine ⟨disciplined_replicate_borrow _ _, ?_, ?_⟩
  · have hstep0 : step conf0 Op.opBorrow
        = some ⟨⟨(), ⟨RefState.Shared 1⟩⟩, 1, 0⟩ := rfl
    rw [show (2 ^ 63 : Nat) = (2 ^ 63 - 1) + 1 from by norm_num,
      List.replicate_succ, run_cons_some hstep0,
      show (1 : Int) = iwrap 1 from by decide,
      run_replicate_borrow]
    norm_num [iwrap]
  · rw [specinv_mk]
    intro h
    have hx := (h.2.2.1 (-(2 ^ 63))).mp rfl
    omega

/-- Claim C1 (amended): for every trace respecting release discipline in
which the number of live shared guards never exceeds `isize::MAX`, the final
configuration satisfies the full aliasing invariant. -/
theorem aliasing_invariant_bounded (ops : List Op) (s' : Config)
    (h1 : okTrace conf0 ops = true) (h2 : run ops conf0 = some s') :
    specInv s' := by
  obtain ⟨s'', hrun, hinv, _⟩ :=
    run_preserves ops conf0 ⟨rfl, rfl⟩ (Nat.zero_le _) h1
  rw [h2] at hrun
  injection hrun with he
  rw [he]
  exact inv_implies_specInv _ hinv

/-- Instantiation of `aliasing_invariant_bounded` on the trace
`[borrow, release]`. -/
theorem aliasing_invariant_bounded_inst :
    okTrace conf0 [Op.opBorrow, Op.opReleaseShared] = true ∧
    specInv ⟨⟨(), ⟨RefState.Unshared⟩⟩, 0, 0⟩ :=
  ⟨by decide,
   aliasing_invariant_bounded [Op.opBorrow, Op.opReleaseShared] _ (by decide) rfl⟩

/-- Claim C5 as stated is false on the code: an (astronomically long)
disciplined trace wraps the count back to `Shared(1)`, a release then resets
the state to `Unshared` while `2^64` shared guards are still live, and the
next release executes the fatal `unreachable!()` branch (the run panics). -/
theorem fatal_branch_cex :
    disciplinedB conf0 (List.replicate (2 ^ 64 + 1) Op.opBorrow
        ++ [Op.opReleaseShared, Op.opReleaseShared]) = true ∧
    run (List.replicate (2 ^ 64 + 1) Op.opBorrow
        ++ [Op.opReleaseShared, Op.opReleaseShared]) conf0 = none := by
  have hrun1 : run (List.replicate (2 ^ 64 + 1) Op.opBorrow) conf0
      = some ⟨⟨(), ⟨RefState.Shared 1⟩⟩, 1 + 2 ^ 64, 0⟩ := by
    have hstep0 : step conf0 Op.opBorrow
        = some ⟨⟨(), ⟨RefState.Shared 1⟩⟩, 1, 0⟩ := rfl
    rw [List.replicate_succ, run_cons_some hstep0,
      show (1 : Int) = iwrap 1 from by decide,
      run_replicate_borrow]
    norm_num [iwrap]
  constructor
  · refine disciplined_append _ _ _ _ hrun1 (disciplined_replicate_borrow _ _) ?_
    decide
  · rw [run_append _ _ _ _ hrun1,
      run_cons_some (step_release_shared 1 () (1 + 2 ^ 64) 0)]
    simp only [if_pos rfl]
    rfl

/-- Claim C5 (amended): for every trace respecting release discipline in
which the number of live shared guards never exceeds `isize::MAX`, no release
ever executes the fatal branch (the run completes); and the fatal branch is
exactly the behaviour of a release observing an impossible state: dropping a
`Ref` at `Unshared` or `Exclusive`, or a `RefMut` at `Unshared` or
`Shared(_)`, panics rather than continuing. -/
theorem fatal_branch_unreachable {T : Type} (v : T) (n : Int) (ops : List Op)
    (h : okTrace conf0 ops = true) :
    (run ops conf0).isSome = true ∧
    Ref.drop (⟨v, ⟨RefState.Unshared⟩⟩ : RefCell T) = none ∧
    Ref.drop (⟨v, ⟨RefState.Exclusive⟩⟩ : RefCell T) = none ∧
    RefMut.drop (⟨v, ⟨RefState.Unshared⟩⟩ : RefCell T) = none ∧
    RefMut.drop (⟨v, ⟨RefState.Shared n⟩⟩ : RefCell T) = none := by
  obtain ⟨s', hrun, _, _⟩ :=
    run_preserves ops conf0 ⟨rfl, rfl⟩ (Nat.zero_le _) h
  exact ⟨by rw [hrun]; rfl, rfl, rfl, rfl, rfl⟩

/-- Instantiation of `fatal_branch_unreachable` on the trace
`[borrow, release]`. -/
theorem fatal_branch_unreachable_inst :
    okTrace conf0 [Op.opBorrow, Op.opReleaseShared] = true ∧
    (run [Op.opBorrow, Op.opReleaseShared] conf0).isSome = true :=
  ⟨by decide, (fatal_branch_unreachable () 0 _ (by decide)).1⟩

/-- Claim C10: the shared count is a signed machine integer with no overflow
guard: the state `Shared(isize::MAX)` is reached after `isize::MAX`
successive unreleased borrows, and one further `borrow` still returns a guard
but wraps the count to `isize::MIN`, violating the `count ≥ 1` invariant. -/
theorem shared_count_overflow :
    run (List.replicate isizeMaxN Op.opBorrow) conf0
        = some ⟨⟨(), ⟨RefState.Shared isizeMax⟩⟩, isizeMaxN, 0⟩ ∧
    RefCell.borrow (⟨(), ⟨RefState.Shared isizeMax⟩⟩ : RefCell Unit)
        = some ⟨(), ⟨RefState.Shared isizeMin⟩⟩ ∧
    ¬ (1 ≤ isizeMin) := by
  refine ⟨?_, ?_, by decide⟩
  · have hstep0 : step conf0 Op.opBorrow
        = some ⟨⟨(), ⟨RefState.Shared 1⟩⟩, 1, 0⟩ := rfl
    rw [show isizeMaxN = (isizeMaxN - 1) + 1 from by norm_num [isizeMaxN],
      List.replicate_succ, run_cons_some hstep0,
      show (1 : Int) = iwrap 1 from by decide,
      run_replicate_borrow]
    norm_num [iwrap, isizeMax, isizeMaxN]
  · show some (⟨(), ⟨RefState.Shared (iwrap (isizeMax + 1))⟩⟩ : RefCell Unit) = _
    rw [show iwrap (isizeMax + 1) = isizeMin from by decide]

end Crust
